import Mathlib

/-!
Shallow embedding of the modal line editor of `src/main.rs` (rustguard):
the `EditorState` structure, its constructor `EditorState::new`, and its key
handler `EditorState::handle_event`, together with the line-splitting
semantics of the Rust function str::lines used by the constructor and the
newline-join used at save time.

Strings are modelled as `List Char`.  A Rust panic (out-of-bounds
`Vec`/`String` index, `insert`, `remove` or `split_off`) is modelled by
`Option`: `handle_event` returns `none` exactly when the original code
would panic, and `some (s, out)` when it returns normally with the mutated
state `s` and return value `out` (an `Option Outcome` models the optional
static string result with its two sentinel values saved / cancel).
-/

/-- Insert an element at position `i` of a list (total version; the intended
domain is `i ≤ l.length`). Models `Vec::insert` / `String::insert`. -/
def insertAt (l : List α) (i : Nat) (a : α) : List α :=
  l.take i ++ a :: l.drop i

/-- Checked insertion, modelling Vec::insert / String::insert, with `none` standing for the panic on
`i > l.length`. -/
def insertAt? (l : List α) (i : Nat) (a : α) : Option (List α) :=
  if i ≤ l.length then some (insertAt l i a) else none

/-- Remove the element at position `i` of a list (total version; the intended
domain is `i < l.length`). Models `Vec::remove` / `String::remove`. -/
def removeAt (l : List α) (i : Nat) : List α :=
  l.take i ++ l.drop (i + 1)

/-- Checked removal, modelling Vec::remove / String::remove, dropping the element at index `i`,
with `none` modelling the panic on `i ≥ l.length`. -/
def removeAt? (l : List α) (i : Nat) : Option (List α) :=
  if i < l.length then some (removeAt l i) else none

/-- Split-off, modelling String::split_off at `i`: the line keeps its first `i` characters and the
tail is returned; `none` models the panic on `i > l.length`. -/
def splitOff? (l : List α) (i : Nat) : Option (List α × List α) :=
  if i ≤ l.length then some (l.take i, l.drop i) else none

/-- Split a character list on the newline character, producing one segment
more than the number of newlines (an exclusive split). -/
def splitOnNl : List Char → List (List Char)
  | [] => [[]]
  | c :: rest =>
    if c = '\n' then [] :: splitOnNl rest
    else
      match splitOnNl rest with
      | [] => [[c]]
      | l :: ls => (c :: l) :: ls

/-- Remove one trailing carriage return, if present. -/
def stripCr (l : List Char) : List Char :=
  if l.getLast? = some '\r' then l.dropLast else l

/-- Line splitting as in the Rust function str::lines: split on the newline
character; a final empty segment (from a
trailing newline, or from the empty string) yields no line; every
newline-terminated segment has one trailing carriage return stripped. -/
def rustLines (s : List Char) : List (List Char) :=
  let p := splitOnNl s
  if p.getLast? = some [] then (p.dropLast).map stripCr
  else (p.dropLast).map stripCr ++ [p.getLastD []]

/-- Joining, as in the lines.join call of main: the buffer content joined by newline separators,
as used when saving in `main`. -/
def joinLines : List (List Char) → List Char
  | [] => []
  | [l] => l
  | l :: ls => l ++ '\n' :: joinLines ls

/-- The editor mode (`enum EditorMode`): `Normal` is the navigation mode,
`Insert` the insertion mode. -/
inductive EditorMode where
  | normal
  | insert
deriving DecidableEq, Repr

/-- The logical key identifier of a key event (`crossterm::event::KeyCode`):
a printable character or one of the named keys consulted by the editor;
`other` stands for every remaining `KeyCode` variant, all of which fall into
the catch-all arms of `handle_event`. -/
inductive KeyCode where
  | char (c : Char)
  | left
  | right
  | up
  | down
  | esc
  | enter
  | backspace
  | other
deriving DecidableEq, Repr

/-- A key event: its key code and whether the control modifier is held
(`key.modifiers.contains(KeyModifiers::CONTROL)`), the only modifier the
editor consults. -/
structure KeyEvent where
  code : KeyCode
  ctrl : Bool
deriving DecidableEq, Repr

/-- The terminal result of an editing session: the sentinel strings
"saved" / "cancel" returned by `handle_event`. -/
inductive Outcome where
  | saved
  | cancelled
deriving DecidableEq, Repr

/-- The editor state (`struct EditorState`). -/
structure EditorState where
  profile : List Char
  lines : List (List Char)
  cursor_row : Nat
  cursor_col : Nat
  mode : EditorMode
  show_cheatsheet : Bool
deriving DecidableEq, Repr

/-- Construction, modelling EditorState::new: an empty content blob becomes the single empty line;
otherwise the content is split by `str::lines`; the cursor starts at (0,0)
in normal mode with the cheatsheet hidden. -/
def EditorState.new (profile : List Char) (content : List Char) : EditorState :=
  { profile := profile
    lines := if content = [] then [[]] else rustLines content
    cursor_row := 0
    cursor_col := 0
    mode := EditorMode.normal
    show_cheatsheet := false }

/-!
The bodies of the match arms of `EditorState::handle_event`, one definition
per editing operation.  Each definition is the verbatim body of the
corresponding arm (the source writes them inline inside one `match`); the
`Option` result is `none` exactly when that arm would panic.  Arms whose
bodies are syntactically identical in the source (the letter key and the
arrow key of the same movement, the shared movement code of normal a
and normal l, and the Up/Down code shared by both modes) share one
definition.
-/

/-- Normal-mode h / Left, and insert-mode Left when the column is
positive: move left one column, clamped at column 0. -/
def EditorState.move_left (s : EditorState) : EditorState :=
  if s.cursor_col > 0 then { s with cursor_col := s.cursor_col - 1 } else s

/-- Normal-mode l / Right (also the movement part of the append key a): move
right one column, clamped at the end of the line. -/
def EditorState.move_right (s : EditorState) : EditorState :=
  match s.lines.get? s.cursor_row with
  | some line =>
    if s.cursor_col < line.length then { s with cursor_col := s.cursor_col + 1 }
    else s
  | none => s

/-- Movement for k / Up in normal mode and Up in insert mode: move up one row if
possible, re-clamping the column to the destination line (a panicking index
in the source, modelled by `none`). -/
def EditorState.move_up (s : EditorState) : Option EditorState :=
  if s.cursor_row > 0 then
    match s.lines.get? (s.cursor_row - 1) with
    | some line =>
      some { s with cursor_row := s.cursor_row - 1,
                    cursor_col := min s.cursor_col line.length }
    | none => none
  else some s

/-- Movement for j / Down in normal mode and Down in insert mode: move down one
row if possible, re-clamping the column to the destination line. -/
def EditorState.move_down (s : EditorState) : Option EditorState :=
  if s.cursor_row + 1 < s.lines.length then
    match s.lines.get? (s.cursor_row + 1) with
    | some line =>
      some { s with cursor_row := s.cursor_row + 1,
                    cursor_col := min s.cursor_col line.length }
    | none => none
  else some s

/-- Normal-mode o (without the mode switch, which the dispatcher does):
advance the row, insert an empty line there, and reset the column. -/
def EditorState.open_line_below (s : EditorState) : Option EditorState :=
  match insertAt? s.lines (s.cursor_row + 1) [] with
  | some newLines =>
    some { s with cursor_row := s.cursor_row + 1, lines := newLines,
                  cursor_col := 0 }
  | none => none

/-- Normal-mode x: remove the character under the cursor if one exists
(no-op at end of line or when the row lookup fails). -/
def EditorState.delete_char_at_cursor (s : EditorState) : EditorState :=
  match s.lines.get? s.cursor_row with
  | some line =>
    if s.cursor_col < line.length then
      { s with lines := s.lines.set s.cursor_row (removeAt line s.cursor_col) }
    else s
  | none => s

/-- Normal-mode D: with more than one line, remove the current row and
clamp the cursor; with exactly one line, clear it and reset the column. -/
def EditorState.delete_line (s : EditorState) : Option EditorState :=
  if s.lines.length > 1 then
    match removeAt? s.lines s.cursor_row with
    | some newLines =>
      match newLines.get? (if s.cursor_row ≥ newLines.length then
          newLines.length - 1 else s.cursor_row) with
      | some line =>
        some { s with lines := newLines,
                      cursor_row := if s.cursor_row ≥ newLines.length then
                        newLines.length - 1 else s.cursor_row,
                      cursor_col := min s.cursor_col line.length }
      | none => none
    | none => none
  else
    match s.lines.get? 0 with
    | some _ => some { s with lines := s.lines.set 0 [], cursor_col := 0 }
    | none => none

/-- Insert-mode printable character without control: insert at the cursor
column and advance the column (no-op when the row lookup fails). -/
def EditorState.insert_char (s : EditorState) (c : Char) : Option EditorState :=
  match s.lines.get? s.cursor_row with
  | some line =>
    match insertAt? line s.cursor_col c with
    | some newLine =>
      some { s with lines := s.lines.set s.cursor_row newLine,
                    cursor_col := s.cursor_col + 1 }
    | none => none
  | none => some s

/-- Insert-mode `Enter`: split the current line at the cursor column, the
tail becoming a new line below; the cursor moves to column 0 of it. -/
def EditorState.insert_newline (s : EditorState) : Option EditorState :=
  match s.lines.get? s.cursor_row with
  | some line =>
    match splitOff? line s.cursor_col with
    | some (pre, post) =>
      match insertAt? (s.lines.set s.cursor_row pre) (s.cursor_row + 1) post with
      | some newLines =>
        some { s with lines := newLines, cursor_row := s.cursor_row + 1,
                      cursor_col := 0 }
      | none => none
    | none => none
  | none => some s

/-- Insert-mode `Backspace`: delete the character before the cursor, or at
column 0 merge the current line onto the end of the previous one. -/
def EditorState.backspace (s : EditorState) : Option EditorState :=
  if s.cursor_col > 0 then
    match s.lines.get? s.cursor_row with
    | some line =>
      match removeAt? line (s.cursor_col - 1) with
      | some newLine =>
        some { s with lines := s.lines.set s.cursor_row newLine,
                      cursor_col := s.cursor_col - 1 }
      | none => none
    | none => some s
  else if s.cursor_row > 0 then
    match s.lines.get? s.cursor_row with
    | some current =>
      match removeAt? s.lines s.cursor_row with
      | some rest =>
        match rest.get? (s.cursor_row - 1) with
        | some prev =>
          some { s with lines := rest.set (s.cursor_row - 1) (prev ++ current),
                        cursor_row := s.cursor_row - 1,
                        cursor_col := prev.length }
        | none => none
      | none => none
    | none => none
  else some s

/-- Insert-mode `Left`: move left one column, or wrap to the end of the
previous line when at column 0 and a previous line exists. -/
def EditorState.insert_left (s : EditorState) : Option EditorState :=
  if s.cursor_col > 0 then some { s with cursor_col := s.cursor_col - 1 }
  else if s.cursor_row > 0 then
    match s.lines.get? (s.cursor_row - 1) with
    | some prev =>
      some { s with cursor_row := s.cursor_row - 1, cursor_col := prev.length }
    | none => none
  else some s

/-- Insert-mode `Right`: move right one column, or wrap to column 0 of the
next line when at end-of-line and a next line exists. -/
def EditorState.insert_right (s : EditorState) : EditorState :=
  match s.lines.get? s.cursor_row with
  | some line =>
    if s.cursor_col < line.length then { s with cursor_col := s.cursor_col + 1 }
    else if s.cursor_row + 1 < s.lines.length then
      { s with cursor_row := s.cursor_row + 1, cursor_col := 0 }
    else s
  | none => s

/-- Dispatcher, modelling EditorState::handle_event: one step of the key-event state machine.
`none` models a panic; `some (s, out)` is the mutated state plus the
optional terminal outcome.  Each branch dispatches to the definition of the
corresponding source match arm; character dispatch is written as an
if-chain because the Char arms of the source are mutually exclusive and
ordered. -/
def EditorState.handle_event (s : EditorState) (key : KeyEvent) :
    Option (EditorState × Option Outcome) :=
  match s.mode with
  | EditorMode.normal =>
    if s.show_cheatsheet then
      some ({ s with show_cheatsheet := false }, none)
    else
      match key.code with
      | KeyCode.char c =>
        if c = 'h' then some (s.move_left, none)
        else if c = 'l' then some (s.move_right, none)
        else if c = 'k' then Option.map (fun t => (t, none)) s.move_up
        else if c = 'j' then Option.map (fun t => (t, none)) s.move_down
        else if c = 'i' then some ({ s with mode := EditorMode.insert }, none)
        else if c = 'a' then some ({ s.move_right with mode := EditorMode.insert }, none)
        else if c = 'o' then
          Option.map (fun t => ({ t with mode := EditorMode.insert }, none)) s.open_line_below
        else if c = 'x' then some (s.delete_char_at_cursor, none)
        else if c = 'D' then Option.map (fun t => (t, none)) s.delete_line
        else if c = '?' then
          some ({ s with show_cheatsheet := !s.show_cheatsheet }, none)
        else if c = 's' ∧ key.ctrl = true then some (s, some Outcome.saved)
        else some (s, none)
      | KeyCode.left => some (s.move_left, none)
      | KeyCode.right => some (s.move_right, none)
      | KeyCode.up => Option.map (fun t => (t, none)) s.move_up
      | KeyCode.down => Option.map (fun t => (t, none)) s.move_down
      | KeyCode.esc => some (s, some Outcome.cancelled)
      | _ => some (s, none)
  | EditorMode.insert =>
    match key.code with
    | KeyCode.esc => some ({ s with mode := EditorMode.normal }, none)
    | KeyCode.char c =>
      if key.ctrl = false then Option.map (fun t => (t, none)) (s.insert_char c)
      else if c = 's' then some (s, some Outcome.saved)
      else some (s, none)
    | KeyCode.enter => Option.map (fun t => (t, none)) s.insert_newline
    | KeyCode.backspace => Option.map (fun t => (t, none)) s.backspace
    | KeyCode.left => Option.map (fun t => (t, none)) s.insert_left
    | KeyCode.right => some (s.insert_right, none)
    | KeyCode.up => Option.map (fun t => (t, none)) s.move_up
    | KeyCode.down => Option.map (fun t => (t, none)) s.move_down
    | _ => some (s, none)

/-- The cursor-bounds invariant of the spec: the row indexes a real line and
the column sits within (or just past the end of) that line. -/
def wf (s : EditorState) : Prop :=
  s.cursor_row < s.lines.length ∧
    s.cursor_col ≤ (s.lines.getD s.cursor_row []).length

instance (s : EditorState) : Decidable (wf s) := by
  unfold wf; infer_instance

/-! ### Basic lemmas about the list helpers -/

theorem insertAt_length {l : List α} {i : Nat} {a : α} (h : i ≤ l.length) :
    (insertAt l i a).length = l.length + 1 := by
  simp [insertAt]
  omega

theorem insertAt?_some_iff {l l' : List α} {i : Nat} {a : α} :
    insertAt? l i a = some l' ↔ i ≤ l.length ∧ l' = insertAt l i a := by
  unfold insertAt?
  split <;> simp_all [eq_comm]

theorem removeAt_length {l : List α} {i : Nat} (h : i < l.length) :
    (removeAt l i).length + 1 = l.length := by
  simp [removeAt]
  omega

theorem removeAt?_some_iff {l l' : List α} {i : Nat} :
    removeAt? l i = some l' ↔ i < l.length ∧ l' = removeAt l i := by
  unfold removeAt?
  split <;> simp_all [eq_comm]

theorem splitOff?_some_iff {l pre post : List α} {i : Nat} :
    splitOff? l i = some (pre, post) ↔
      i ≤ l.length ∧ pre = l.take i ∧ post = l.drop i := by
  unfold splitOff?
  split <;> simp_all [eq_comm]

theorem getD_eq_of_get? {l : List α} {i : Nat} {a d : α} (h : l.get? i = some a) :
    l.getD i d = a := by
  rw [List.get?_eq_getElem?] at h
  simp [List.getD, h]

theorem getD_set_self {l : List α} {i : Nat} {a d : α} (h : i < l.length) :
    (l.set i a).getD i d = a := by
  simp [List.getD, List.getElem?_set_eq_of_lt a h]

/-! ### Preservation of the cursor invariant by each operation -/

theorem move_left_wf {s : EditorState} (h : wf s) : wf s.move_left := by
  obtain ⟨hr, hc⟩ := h
  unfold EditorState.move_left
  split
  · exact ⟨hr, Nat.le_trans (Nat.sub_le _ _) hc⟩
  · exact ⟨hr, hc⟩

theorem move_right_wf {s : EditorState} (h : wf s) : wf s.move_right := by
  obtain ⟨hr, hc⟩ := h
  unfold EditorState.move_right
  split
  · rename_i line heq
    split
    · rename_i hlt
      refine ⟨hr, ?_⟩
      show s.cursor_col + 1 ≤ (s.lines.getD s.cursor_row []).length
      rw [getD_eq_of_get? heq]
      omega
    · exact ⟨hr, hc⟩
  · exact ⟨hr, hc⟩

theorem move_up_sound {s : EditorState} (h : wf s) :
    ∃ t, s.move_up = some t ∧ wf t := by
  obtain ⟨hr, hc⟩ := h
  unfold EditorState.move_up
  split
  · rename_i hpos
    split
    · rename_i line heq
      refine ⟨_, rfl, ?_, ?_⟩
      · show s.cursor_row - 1 < s.lines.length
        omega
      · show min s.cursor_col line.length ≤ (s.lines.getD (s.cursor_row - 1) []).length
        rw [getD_eq_of_get? heq]
        exact Nat.min_le_right _ _
    · rename_i heq
      rw [List.get?_eq_none] at heq
      omega
  · exact ⟨s, rfl, hr, hc⟩

theorem move_down_sound {s : EditorState} (h : wf s) :
    ∃ t, s.move_down = some t ∧ wf t := by
  obtain ⟨hr, hc⟩ := h
  unfold EditorState.move_down
  split
  · rename_i hlt
    split
    · rename_i line heq
      refine ⟨_, rfl, ?_, ?_⟩
      · show s.cursor_row + 1 < s.lines.length
        omega
      · show min s.cursor_col line.length ≤ (s.lines.getD (s.cursor_row + 1) []).length
        rw [getD_eq_of_get? heq]
        exact Nat.min_le_right _ _
    · rename_i heq
      rw [List.get?_eq_none] at heq
      omega
  · exact ⟨s, rfl, hr, hc⟩

theorem open_line_below_sound {s : EditorState} (h : wf s) :
    ∃ t, s.open_line_below = some t ∧ wf t := by
  obtain ⟨hr, hc⟩ := h
  unfold EditorState.open_line_below
  split
  · rename_i newLines heq
    obtain ⟨hle, hnl⟩ := insertAt?_some_iff.mp heq
    refine ⟨_, rfl, ?_, ?_⟩
    · show s.cursor_row + 1 < newLines.length
      rw [hnl, insertAt_length hle]
      omega
    · exact Nat.zero_le _
  · rename_i heq
    unfold insertAt? at heq
    rw [if_pos (show s.cursor_row + 1 ≤ s.lines.length by omega)] at heq
    simp at heq

theorem delete_char_at_cursor_wf {s : EditorState} (h : wf s) :
    wf s.delete_char_at_cursor := by
  obtain ⟨hr, hc⟩ := h
  unfold EditorState.delete_char_at_cursor
  split
  · rename_i line heq
    split
    · rename_i hlt
      refine ⟨?_, ?_⟩
      · show s.cursor_row < (s.lines.set s.cursor_row (removeAt line s.cursor_col)).length
        simpa using hr
      · show s.cursor_col ≤ ((s.lines.set s.cursor_row (removeAt line s.cursor_col)).getD s.cursor_row []).length
        rw [getD_set_self hr]
        have := removeAt_length hlt
        omega
    · exact ⟨hr, hc⟩
  · exact ⟨hr, hc⟩

theorem delete_line_sound {s : EditorState} (h : wf s) :
    ∃ t, s.delete_line = some t ∧ wf t := by
  obtain ⟨hr, hc⟩ := h
  unfold EditorState.delete_line
  split
  · rename_i hgt
    split
    · rename_i newLines heq
      obtain ⟨hlt, hnl⟩ := removeAt?_some_iff.mp heq
      have hlen : newLines.length + 1 = s.lines.length := by
        rw [hnl]; exact removeAt_length hlt
      split
      · rename_i line heq2
        refine ⟨_, rfl, ?_, ?_⟩
        · show (if s.cursor_row ≥ newLines.length then newLines.length - 1
              else s.cursor_row) < newLines.length
          split <;> omega
        · show min s.cursor_col line.length ≤
            (newLines.getD (if s.cursor_row ≥ newLines.length then
              newLines.length - 1 else s.cursor_row) []).length
          rw [getD_eq_of_get? heq2]
          exact Nat.min_le_right _ _
      · rename_i heq2
        rw [List.get?_eq_none] at heq2
        revert heq2
        split <;> omega
    · rename_i heq
      unfold removeAt? at heq
      rw [if_pos hr] at heq
      simp at heq
  · rename_i hle
    split
    · rename_i l0 heq
      refine ⟨_, rfl, ?_, ?_⟩
      · show s.cursor_row < (s.lines.set 0 []).length
        simpa using hr
      · exact Nat.zero_le _
    · rename_i heq
      rw [List.get?_eq_none] at heq
      omega

theorem insert_char_sound {s : EditorState} (c : Char) (h : wf s) :
    ∃ t, s.insert_char c = some t ∧ wf t := by
  obtain ⟨hr, hc⟩ := h
  unfold EditorState.insert_char
  split
  · rename_i line heq
    have hcl : s.cursor_col ≤ line.length := by
      rw [getD_eq_of_get? heq] at hc; exact hc
    split
    · rename_i newLine heq2
      obtain ⟨hle, hnl⟩ := insertAt?_some_iff.mp heq2
      refine ⟨_, rfl, ?_, ?_⟩
      · show s.cursor_row < (s.lines.set s.cursor_row newLine).length
        simpa using hr
      · show s.cursor_col + 1 ≤
          ((s.lines.set s.cursor_row newLine).getD s.cursor_row []).length
        rw [getD_set_self hr, hnl, insertAt_length hle]
        omega
    · rename_i heq2
      unfold insertAt? at heq2
      rw [if_pos hcl] at heq2
      simp at heq2
  · exact ⟨s, rfl, hr, hc⟩

theorem insert_newline_sound {s : EditorState} (h : wf s) :
    ∃ t, s.insert_newline = some t ∧ wf t := by
  obtain ⟨hr, hc⟩ := h
  unfold EditorState.insert_newline
  split
  · rename_i line heq
    have hcl : s.cursor_col ≤ line.length := by
      rw [getD_eq_of_get? heq] at hc; exact hc
    split
    · rename_i pre post heq2
      split
      · rename_i newLines heq3
        obtain ⟨hle, hnl⟩ := insertAt?_some_iff.mp heq3
        refine ⟨_, rfl, ?_, ?_⟩
        · show s.cursor_row + 1 < newLines.length
          rw [hnl, insertAt_length hle]
          simp only [List.length_set] at hle ⊢
          omega
        · exact Nat.zero_le _
      · rename_i heq3
        unfold insertAt? at heq3
        rw [if_pos (by simpa using Nat.succ_le_of_lt hr)] at heq3
        simp at heq3
    · rename_i heq2
      unfold splitOff? at heq2
      rw [if_pos hcl] at heq2
      simp at heq2
  · exact ⟨s, rfl, hr, hc⟩

theorem backspace_sound {s : EditorState} (h : wf s) :
    ∃ t, s.backspace = some t ∧ wf t := by
  obtain ⟨hr, hc⟩ := h
  unfold EditorState.backspace
  split
  · rename_i hpos
    split
    · rename_i line heq
      have hcl : s.cursor_col ≤ line.length := by
        rw [getD_eq_of_get? heq] at hc; exact hc
      split
      · rename_i newLine heq2
        obtain ⟨hlt, hnl⟩ := removeAt?_some_iff.mp heq2
        have := removeAt_length hlt
        refine ⟨_, rfl, ?_, ?_⟩
        · show s.cursor_row < (s.lines.set s.cursor_row newLine).length
          simpa using hr
        · show s.cursor_col - 1 ≤
            ((s.lines.set s.cursor_row newLine).getD s.cursor_row []).length
          rw [getD_set_self hr, hnl]
          omega
      · rename_i heq2
        unfold removeAt? at heq2
        rw [if_pos (by omega)] at heq2
        simp at heq2
    · rename_i heq
      exact ⟨s, rfl, hr, hc⟩
  · split
    · rename_i hrow
      split
      · rename_i current heq
        split
        · rename_i rest heq2
          obtain ⟨hlt, hrest⟩ := removeAt?_some_iff.mp heq2
          have hrl : rest.length + 1 = s.lines.length := by
            rw [hrest]; exact removeAt_length hlt
          split
          · rename_i prev heq3
            refine ⟨_, rfl, ?_, ?_⟩
            · show s.cursor_row - 1 <
                (rest.set (s.cursor_row - 1) (prev ++ current)).length
              simp only [List.length_set]
              omega
            · show prev.length ≤
                ((rest.set (s.cursor_row - 1) (prev ++ current)).getD
                  (s.cursor_row - 1) []).length
              rw [getD_set_self (by omega)]
              simp
          · rename_i heq3
            rw [List.get?_eq_none] at heq3
            omega
        · rename_i heq2
          unfold removeAt? at heq2
          rw [if_pos hr] at heq2
          simp at heq2
      · rename_i heq
        rw [List.get?_eq_none] at heq
        omega
    · rename_i hrow
      exact ⟨s, rfl, hr, hc⟩

theorem insert_left_sound {s : EditorState} (h : wf s) :
    ∃ t, s.insert_left = some t ∧ wf t := by
  obtain ⟨hr, hc⟩ := h
  unfold EditorState.insert_left
  split
  · exact ⟨_, rfl, hr, Nat.le_trans (Nat.sub_le _ _) hc⟩
  · split
    · rename_i hrow
      split
      · rename_i prev heq
        refine ⟨_, rfl, ?_, ?_⟩
        · show s.cursor_row - 1 < s.lines.length
          omega
        · show prev.length ≤ (s.lines.getD (s.cursor_row - 1) []).length
          rw [getD_eq_of_get? heq]
      · rename_i heq
        rw [List.get?_eq_none] at heq
        omega
    · exact ⟨s, rfl, hr, hc⟩

theorem insert_right_wf {s : EditorState} (h : wf s) : wf s.insert_right := by
  obtain ⟨hr, hc⟩ := h
  unfold EditorState.insert_right
  split
  · rename_i line heq
    split
    · rename_i hlt
      refine ⟨hr, ?_⟩
      show s.cursor_col + 1 ≤ (s.lines.getD s.cursor_row []).length
      rw [getD_eq_of_get? heq]
      omega
    · split
      · rename_i hlt2
        exact ⟨hlt2, Nat.zero_le _⟩
      · exact ⟨hr, hc⟩
  · exact ⟨hr, hc⟩

/-- Soundness of one dispatcher step: on a state satisfying the cursor
invariant, `handle_event` never panics and preserves the invariant. -/
theorem handle_event_sound (s : EditorState) (k : KeyEvent) (h : wf s) :
    ∃ s' out, s.handle_event k = some (s', out) ∧ wf s' := by
  rcases k with ⟨code, ctrl⟩
  rcases hm : s.mode with _ | _
  · -- normal mode
    rcases hov : s.show_cheatsheet with _ | _
    · -- overlay hidden
      unfold EditorState.handle_event
      rw [hm, hov]
      simp only [Bool.false_eq_true, if_false]
      cases code <;> dsimp only
      case char c =>
        by_cases h1 : c = 'h'
        · rw [if_pos h1]; exact ⟨_, _, rfl, move_left_wf h⟩
        rw [if_neg h1]
        by_cases h2 : c = 'l'
        · rw [if_pos h2]; exact ⟨_, _, rfl, move_right_wf h⟩
        rw [if_neg h2]
        by_cases h3 : c = 'k'
        · rw [if_pos h3]
          obtain ⟨t, ht, hwt⟩ := move_up_sound h
          rw [ht]
          exact ⟨t, none, rfl, hwt⟩
        rw [if_neg h3]
        by_cases h4 : c = 'j'
        · rw [if_pos h4]
          obtain ⟨t, ht, hwt⟩ := move_down_sound h
          rw [ht]
          exact ⟨t, none, rfl, hwt⟩
        rw [if_neg h4]
        by_cases h5 : c = 'i'
        · rw [if_pos h5]; exact ⟨_, _, rfl, h⟩
        rw [if_neg h5]
        by_cases h6 : c = 'a'
        · rw [if_pos h6]
          exact ⟨_, _, rfl, move_right_wf h⟩
        rw [if_neg h6]
        by_cases h7 : c = 'o'
        · rw [if_pos h7]
          obtain ⟨t, ht, hwt⟩ := open_line_below_sound h
          rw [ht]
          exact ⟨_, none, rfl, hwt⟩
        rw [if_neg h7]
        by_cases h8 : c = 'x'
        · rw [if_pos h8]; exact ⟨_, _, rfl, delete_char_at_cursor_wf h⟩
        rw [if_neg h8]
        by_cases h9 : c = 'D'
        · rw [if_pos h9]
          obtain ⟨t, ht, hwt⟩ := delete_line_sound h
          rw [ht]
          exact ⟨t, none, rfl, hwt⟩
        rw [if_neg h9]
        by_cases h10 : c = '?'
        · rw [if_pos h10]; exact ⟨_, _, rfl, h⟩
        rw [if_neg h10]
        by_cases h11 : c = 's' ∧ ctrl = true
        · rw [if_pos h11]; exact ⟨_, _, rfl, h⟩
        · rw [if_neg h11]; exact ⟨_, _, rfl, h⟩
      case left => exact ⟨_, _, rfl, move_left_wf h⟩
      case right => exact ⟨_, _, rfl, move_right_wf h⟩
      case up =>
        obtain ⟨t, ht, hwt⟩ := move_up_sound h
        rw [ht]
        exact ⟨t, none, rfl, hwt⟩
      case down =>
        obtain ⟨t, ht, hwt⟩ := move_down_sound h
        rw [ht]
        exact ⟨t, none, rfl, hwt⟩
      case esc => exact ⟨_, _, rfl, h⟩
      case enter => exact ⟨_, _, rfl, h⟩
      case backspace => exact ⟨_, _, rfl, h⟩
      case other => exact ⟨_, _, rfl, h⟩
    · -- overlay visible
      unfold EditorState.handle_event
      rw [hm, hov]
      exact ⟨_, _, rfl, h⟩
  · -- insert mode
    unfold EditorState.handle_event
    rw [hm]
    cases code <;> dsimp only
    case esc => exact ⟨_, _, rfl, h⟩
    case char c =>
      by_cases h1 : ctrl = false
      · rw [if_pos h1]
        obtain ⟨t, ht, hwt⟩ := insert_char_sound c h
        rw [ht]
        exact ⟨t, none, rfl, hwt⟩
      rw [if_neg h1]
      by_cases h2 : c = 's'
      · rw [if_pos h2]; exact ⟨_, _, rfl, h⟩
      · rw [if_neg h2]; exact ⟨_, _, rfl, h⟩
    case enter =>
      obtain ⟨t, ht, hwt⟩ := insert_newline_sound h
      rw [ht]
      exact ⟨t, none, rfl, hwt⟩
    case backspace =>
      obtain ⟨t, ht, hwt⟩ := backspace_sound h
      rw [ht]
      exact ⟨t, none, rfl, hwt⟩
    case left =>
      obtain ⟨t, ht, hwt⟩ := insert_left_sound h
      rw [ht]
      exact ⟨t, none, rfl, hwt⟩
    case right => exact ⟨_, _, rfl, insert_right_wf h⟩
    case up =>
      obtain ⟨t, ht, hwt⟩ := move_up_sound h
      rw [ht]
      exact ⟨t, none, rfl, hwt⟩
    case down =>
      obtain ⟨t, ht, hwt⟩ := move_down_sound h
      rw [ht]
      exact ⟨t, none, rfl, hwt⟩
    case other => exact ⟨_, _, rfl, h⟩

/-! ### Well-formedness of freshly constructed states -/

theorem splitOnNl_ne_nil (s : List Char) : splitOnNl s ≠ [] := by
  cases s with
  | nil => simp [splitOnNl]
  | cons c rest =>
    unfold splitOnNl
    split
    · simp
    · split <;> simp

theorem splitOnNl_last_empty_length {c : Char} {rest : List Char}
    (h : (splitOnNl (c :: rest)).getLast? = some []) :
    2 ≤ (splitOnNl (c :: rest)).length := by
  have hne := splitOnNl_ne_nil rest
  by_cases hnl : c = '\n'
  · unfold splitOnNl
    rw [if_pos hnl]
    have := List.length_pos.mpr hne
    simp only [List.length_cons]
    omega
  · unfold splitOnNl at h ⊢
    rw [if_neg hnl] at h ⊢
    cases hrest : splitOnNl rest with
    | nil => exact absurd hrest hne
    | cons l ls =>
      rw [hrest] at h
      dsimp only at h ⊢
      cases ls with
      | nil => simp [List.getLast?] at h
      | cons b bs => simp

theorem rustLines_ne_nil {s : List Char} (h : s ≠ []) : rustLines s ≠ [] := by
  unfold rustLines
  dsimp only
  split
  · rename_i hlast
    cases s with
    | nil => exact absurd rfl h
    | cons c rest =>
      have h2 := splitOnNl_last_empty_length hlast
      have : 0 < ((splitOnNl (c :: rest)).dropLast.map stripCr).length := by
        simp only [List.length_map, List.length_dropLast]
        omega
      exact List.ne_nil_of_length_pos this
  · simp

theorem new_wf (p content : List Char) : wf (EditorState.new p content) := by
  unfold EditorState.new wf
  dsimp only
  split
  · exact ⟨Nat.one_pos, Nat.zero_le _⟩
  · rename_i hne
    exact ⟨List.length_pos.mpr (rustLines_ne_nil hne), Nat.zero_le _⟩

/-! ### Claim theorems -/

/-- Concrete editor states used by the witnesses below. -/
def mkState (L : List (List Char)) (r c : Nat) (m : EditorMode) (ov : Bool) :
    EditorState :=
  { profile := [], lines := L, cursor_row := r, cursor_col := c, mode := m,
    show_cheatsheet := ov }

/-- C1: every state built by `EditorState::new` satisfies the cursor bounds
`cursor_row < lines.length` and `cursor_col ≤ lines[cursor_row].length`, and
every `handle_event` call on a state satisfying these bounds yields a state
satisfying them. -/
theorem cursor_bounds_invariant :
    (∀ p content, wf (EditorState.new p content)) ∧
    (∀ (s : EditorState) (k : KeyEvent) (s' : EditorState) (out : Option Outcome),
      wf s → s.handle_event k = some (s', out) → wf s') := by
  refine ⟨new_wf, ?_⟩
  intro s k s' out hwf heq
  obtain ⟨t, o, ht, hwt⟩ := handle_event_sound s k hwf
  rw [ht] at heq
  simp only [Option.some.injEq, Prod.mk.injEq] at heq
  rw [← heq.1]
  exact hwt

/-- C1 witness: the invariant holds after a concrete `j` move. -/
theorem cursor_bounds_invariant_witness :
    wf (mkState [['a', 'b'], ['c']] 1 1 EditorMode.normal false) :=
  cursor_bounds_invariant.2 (mkState [['a', 'b'], ['c']] 0 2 EditorMode.normal false)
    ⟨KeyCode.char 'j', false⟩ _ _ (by decide) rfl

/-- C2: the line sequence is never empty: construction always yields at
least one line (an empty blob yields exactly one empty line), and no
`handle_event` call on a well-formed state can empty the buffer. -/
theorem lines_never_empty :
    (∀ p content, 1 ≤ (EditorState.new p content).lines.length) ∧
    (∀ p, (EditorState.new p []).lines = [[]]) ∧
    (∀ (s : EditorState) (k : KeyEvent) (s' : EditorState) (out : Option Outcome),
      wf s → s.handle_event k = some (s', out) → 1 ≤ s'.lines.length) := by
  refine ⟨fun p content => (new_wf p content).1, fun p => rfl, ?_⟩
  intro s k s' out hwf heq
  obtain ⟨t, o, ht, hwt⟩ := handle_event_sound s k hwf
  rw [ht] at heq
  simp only [Option.some.injEq, Prod.mk.injEq] at heq
  rw [← heq.1]
  have := hwt.1
  omega

/-- C2 witness: deleting a line of a two-line buffer leaves one line. -/
theorem lines_never_empty_witness :
    1 ≤ (mkState [['b']] 0 0 EditorMode.normal false).lines.length :=
  lines_never_empty.2.2 (mkState [['a'], ['b']] 0 0 EditorMode.normal false)
    ⟨KeyCode.char 'D', false⟩ _ _ (by decide) rfl

/-- C3: `handle_event` is total over the valid state space: on any state
satisfying the invariants it returns a value (no modelled panic), for every
key event. -/
theorem handle_event_total (s : EditorState) (k : KeyEvent) (h : wf s) :
    (s.handle_event k).isSome := by
  obtain ⟨t, o, ht, _⟩ := handle_event_sound s k h
  rw [ht]
  rfl

/-- C3 witness: a concrete call is defined. -/
theorem handle_event_total_witness :
    ((mkState [['a']] 0 1 EditorMode.insert false).handle_event
      ⟨KeyCode.right, false⟩).isSome :=
  handle_event_total (mkState [['a']] 0 1 EditorMode.insert false)
    ⟨KeyCode.right, false⟩ (by decide)

/-- C4: in normal mode with the cheatsheet overlay visible, any key only
hides the overlay and is consumed: no outcome, and lines, cursor and mode
are unchanged. -/
theorem overlay_consumes_key (s : EditorState) (k : KeyEvent)
    (hm : s.mode = EditorMode.normal) (hov : s.show_cheatsheet = true) :
    ∃ s', s.handle_event k = some (s', none) ∧ s'.show_cheatsheet = false ∧
      s'.lines = s.lines ∧ s'.cursor_row = s.cursor_row ∧
      s'.cursor_col = s.cursor_col ∧ s'.mode = s.mode := by
  refine ⟨{ s with show_cheatsheet := false }, ?_, rfl, rfl, rfl, rfl, hm ▸ rfl⟩
  unfold EditorState.handle_event
  rw [hm, hov]
  rfl

/-- C4 witness: the save combination while the overlay is visible only
hides the overlay. -/
theorem overlay_consumes_key_witness :
    ∃ s', (mkState [['a']] 0 0 EditorMode.normal true).handle_event
        ⟨KeyCode.char 's', true⟩ = some (s', none) ∧
      s'.show_cheatsheet = false ∧
      s'.lines = (mkState [['a']] 0 0 EditorMode.normal true).lines ∧
      s'.cursor_row = (mkState [['a']] 0 0 EditorMode.normal true).cursor_row ∧
      s'.cursor_col = (mkState [['a']] 0 0 EditorMode.normal true).cursor_col ∧
      s'.mode = (mkState [['a']] 0 0 EditorMode.normal true).mode :=
  overlay_consumes_key (mkState [['a']] 0 0 EditorMode.normal true)
    ⟨KeyCode.char 's', true⟩ rfl rfl

/-- C5: the cancel key is mode-dependent: in normal mode (overlay hidden)
it returns the terminal `cancelled` outcome with the state unchanged; in
insert mode it returns no outcome and only switches the mode to normal. -/
theorem esc_mode_dependent (s : EditorState) (m : Bool) :
    (s.mode = EditorMode.normal → s.show_cheatsheet = false →
      s.handle_event ⟨KeyCode.esc, m⟩ = some (s, some Outcome.cancelled)) ∧
    (s.mode = EditorMode.insert →
      s.handle_event ⟨KeyCode.esc, m⟩ =
        some ({ s with mode := EditorMode.normal }, none)) := by
  constructor
  · intro hm hov
    unfold EditorState.handle_event
    rw [hm, hov]
    rfl
  · intro hm
    unfold EditorState.handle_event
    rw [hm]

/-- C5 witness: both behaviors at concrete states. -/
theorem esc_mode_dependent_witness :
    (mkState [['a']] 0 0 EditorMode.normal false).handle_event ⟨KeyCode.esc, false⟩ =
      some (mkState [['a']] 0 0 EditorMode.normal false, some Outcome.cancelled) ∧
    (mkState [['a']] 0 1 EditorMode.insert false).handle_event ⟨KeyCode.esc, false⟩ =
      some ({ mkState [['a']] 0 1 EditorMode.insert false with
        mode := EditorMode.normal }, none) :=
  ⟨(esc_mode_dependent (mkState [['a']] 0 0 EditorMode.normal false) false).1 rfl rfl,
   (esc_mode_dependent (mkState [['a']] 0 1 EditorMode.insert false) false).2 rfl⟩

/-- C6: the save combination (control plus the letter s) returns the terminal
`saved` outcome in either mode (overlay hidden in normal mode), leaving the
state - lines, cursor and overlay flag - unchanged. -/
theorem ctrl_s_saves (s : EditorState)
    (h : s.mode = EditorMode.normal → s.show_cheatsheet = false) :
    s.handle_event ⟨KeyCode.char 's', true⟩ = some (s, some Outcome.saved) := by
  rcases hm : s.mode with _ | _
  · unfold EditorState.handle_event
    rw [hm, h hm]
    rfl
  · unfold EditorState.handle_event
    rw [hm]
    rfl

/-- C6 witness: Ctrl+S saves from both modes at concrete states. -/
theorem ctrl_s_saves_witness :
    (mkState [['a']] 0 0 EditorMode.normal false).handle_event ⟨KeyCode.char 's', true⟩ =
      some (mkState [['a']] 0 0 EditorMode.normal false, some Outcome.saved) ∧
    (mkState [['a']] 0 1 EditorMode.insert false).handle_event ⟨KeyCode.char 's', true⟩ =
      some (mkState [['a']] 0 1 EditorMode.insert false, some Outcome.saved) :=
  ⟨ctrl_s_saves (mkState [['a']] 0 0 EditorMode.normal false) (fun _ => rfl),
   ctrl_s_saves (mkState [['a']] 0 1 EditorMode.insert false) (fun h => by cases h)⟩

theorem get?_eq_some_getD {l : List α} {i : Nat} (d : α) (h : i < l.length) :
    l.get? i = some (l.getD i d) := by
  rcases heq : l.get? i with _ | a
  · rw [List.get?_eq_none] at heq
    omega
  · rw [getD_eq_of_get? heq]

theorem removeAt_get?_lt {l : List α} {i j : Nat} (hj : j < i) (hi : i ≤ l.length) :
    (removeAt l i).get? j = l.get? j := by
  unfold removeAt
  have hlt : j < (l.take i).length := by
    simp only [List.length_take]
    omega
  rw [List.get?_eq_getElem?, List.getElem?_append_left hlt,
    List.getElem?_take_of_lt hj, List.get?_eq_getElem?]

/-- C7: cross-line cursor wrap is asymmetric between the modes: in insert
mode `Right` at end-of-line with a next line moves to column 0 of the next
line and `Left` at column 0 with a previous line moves to the end of the
previous line, while in normal mode the four left/right movement keys never
change `cursor_row`. -/
theorem wrap_asymmetry :
    (∀ (s : EditorState) (m : Bool), wf s → s.mode = EditorMode.insert →
      s.cursor_col = (s.lines.getD s.cursor_row []).length →
      s.cursor_row + 1 < s.lines.length →
      s.handle_event ⟨KeyCode.right, m⟩ =
        some ({ s with cursor_row := s.cursor_row + 1, cursor_col := 0 }, none)) ∧
    (∀ (s : EditorState) (m : Bool), wf s → s.mode = EditorMode.insert →
      s.cursor_col = 0 → 0 < s.cursor_row →
      s.handle_event ⟨KeyCode.left, m⟩ =
        some ({ s with cursor_row := s.cursor_row - 1,
                       cursor_col := (s.lines.getD (s.cursor_row - 1) []).length },
              none)) ∧
    (∀ (s : EditorState) (k : KeyEvent) (s' : EditorState) (out : Option Outcome),
      s.mode = EditorMode.normal → s.show_cheatsheet = false →
      (k.code = KeyCode.left ∨ k.code = KeyCode.right ∨
        k.code = KeyCode.char 'h' ∨ k.code = KeyCode.char 'l') →
      s.handle_event k = some (s', out) → s'.cursor_row = s.cursor_row) := by
  refine ⟨?_, ?_, ?_⟩
  · intro s m hwf hm hcol hrow
    obtain ⟨h1, h2⟩ := hwf
    have hline := get?_eq_some_getD ([] : List Char) h1
    have hstep : s.insert_right =
        { s with cursor_row := s.cursor_row + 1, cursor_col := 0 } := by
      unfold EditorState.insert_right
      rw [hline]
      dsimp only
      rw [if_neg (by omega), if_pos hrow]
    unfold EditorState.handle_event
    rw [hm]
    dsimp only
    rw [hstep, hm]
  · intro s m hwf hm hcol hrow
    obtain ⟨h1, h2⟩ := hwf
    have hprev := get?_eq_some_getD ([] : List Char)
      (show s.cursor_row - 1 < s.lines.length by omega)
    have hstep : s.insert_left =
        some { s with cursor_row := s.cursor_row - 1,
                      cursor_col := (s.lines.getD (s.cursor_row - 1) []).length } := by
      unfold EditorState.insert_left
      rw [if_neg (by omega), if_pos hrow, hprev]
    unfold EditorState.handle_event
    rw [hm]
    dsimp only
    rw [hstep, hm]
    rfl
  · intro s k s' out hm hov hk heq
    have hml : (s.move_left).cursor_row = s.cursor_row := by
      unfold EditorState.move_left
      split <;> rfl
    have hmr : (s.move_right).cursor_row = s.cursor_row := by
      unfold EditorState.move_right
      split
      · split <;> rfl
      · rfl
    rcases k with ⟨code, ctrl⟩
    dsimp only at hk
    rcases hk with hk | hk | hk | hk <;> subst hk
    · have hev : EditorState.handle_event s ⟨KeyCode.left, ctrl⟩ =
          some (s.move_left, none) := by
        unfold EditorState.handle_event
        rw [hm, hov]
        rfl
      rw [hev] at heq
      simp only [Option.some.injEq, Prod.mk.injEq] at heq
      rw [← heq.1]
      exact hml
    · have hev : EditorState.handle_event s ⟨KeyCode.right, ctrl⟩ =
          some (s.move_right, none) := by
        unfold EditorState.handle_event
        rw [hm, hov]
        rfl
      rw [hev] at heq
      simp only [Option.some.injEq, Prod.mk.injEq] at heq
      rw [← heq.1]
      exact hmr
    · have hev : EditorState.handle_event s ⟨KeyCode.char 'h', ctrl⟩ =
          some (s.move_left, none) := by
        unfold EditorState.handle_event
        rw [hm, hov]
        rfl
      rw [hev] at heq
      simp only [Option.some.injEq, Prod.mk.injEq] at heq
      rw [← heq.1]
      exact hml
    · have hev : EditorState.handle_event s ⟨KeyCode.char 'l', ctrl⟩ =
          some (s.move_right, none) := by
        unfold EditorState.handle_event
        rw [hm, hov]
        rfl
      rw [hev] at heq
      simp only [Option.some.injEq, Prod.mk.injEq] at heq
      rw [← heq.1]
      exact hmr

/-- C7 witness: the three behaviors at concrete states. -/
theorem wrap_asymmetry_witness :
    (mkState [['a', 'b'], ['c']] 0 2 EditorMode.insert false).handle_event
        ⟨KeyCode.right, false⟩ =
      some ({ mkState [['a', 'b'], ['c']] 0 2 EditorMode.insert false with
        cursor_row := 1, cursor_col := 0 }, none) ∧
    (mkState [['a', 'b'], ['c']] 1 0 EditorMode.insert false).handle_event
        ⟨KeyCode.left, false⟩ =
      some ({ mkState [['a', 'b'], ['c']] 1 0 EditorMode.insert false with
        cursor_row := 0, cursor_col := 2 }, none) ∧
    (mkState [['a', 'b'], ['c']] 0 2 EditorMode.normal false).cursor_row = 0 :=
  ⟨wrap_asymmetry.1 (mkState [['a', 'b'], ['c']] 0 2 EditorMode.insert false) false
      (by decide) rfl (by decide) (by decide),
   wrap_asymmetry.2.1 (mkState [['a', 'b'], ['c']] 1 0 EditorMode.insert false) false
      (by decide) rfl rfl (by decide),
   wrap_asymmetry.2.2 (mkState [['a', 'b'], ['c']] 0 2 EditorMode.normal false)
      ⟨KeyCode.char 'l', false⟩ _ _ rfl rfl (Or.inr (Or.inr (Or.inr rfl))) rfl⟩

/-- C9: construction round-trip: a state constructed from a non-empty text
holds exactly the lines of that text (str::lines semantics), with no
edits performed; a state constructed from the empty text holds one empty
line, whose newline-join is the empty string. -/
theorem construction_round_trip :
    (∀ p t, t ≠ [] → (EditorState.new p t).lines = rustLines t) ∧
    (∀ p, (EditorState.new p []).lines = [[]] ∧
      joinLines (EditorState.new p []).lines = []) := by
  constructor
  · intro p t ht
    unfold EditorState.new
    dsimp only
    rw [if_neg ht]
  · intro p
    exact ⟨rfl, rfl⟩

/-- C9 witness: a concrete two-line text constructs to its lines. -/
theorem construction_round_trip_witness :
    (EditorState.new [] ['a', '\n', 'b']).lines = rustLines ['a', '\n', 'b'] ∧
    rustLines ['a', '\n', 'b'] = [['a'], ['b']] :=
  ⟨construction_round_trip.1 [] ['a', '\n', 'b'] (by decide), by decide⟩

/-- C10: insert-mode backspace: with a positive column it removes the
character before the cursor and moves the cursor left by one; at column 0
of a non-first row it merges the current line onto the end of the previous
line, removes the current line, and places the cursor at the join point
(the old length of the previous line); in particular from buffer
`["ab", "cd"]` with cursor (1,0) it yields `["abcd"]` with cursor (0,2). -/
theorem backspace_spec :
    (∀ (s : EditorState) (m : Bool), wf s → s.mode = EditorMode.insert →
      0 < s.cursor_col →
      s.handle_event ⟨KeyCode.backspace, m⟩ =
        some ({ s with
          lines := s.lines.set s.cursor_row
            (removeAt (s.lines.getD s.cursor_row []) (s.cursor_col - 1)),
          cursor_col := s.cursor_col - 1 }, none)) ∧
    (∀ (s : EditorState) (m : Bool), wf s → s.mode = EditorMode.insert →
      s.cursor_col = 0 → 0 < s.cursor_row →
      s.handle_event ⟨KeyCode.backspace, m⟩ =
        some ({ s with
          lines := (removeAt s.lines s.cursor_row).set (s.cursor_row - 1)
            (s.lines.getD (s.cursor_row - 1) [] ++ s.lines.getD s.cursor_row []),
          cursor_row := s.cursor_row - 1,
          cursor_col := (s.lines.getD (s.cursor_row - 1) []).length }, none)) ∧
    ((mkState [['a', 'b'], ['c', 'd']] 1 0 EditorMode.insert false).handle_event
        ⟨KeyCode.backspace, false⟩ =
      some (mkState [['a', 'b', 'c', 'd']] 0 2 EditorMode.insert false, none)) := by
  refine ⟨?_, ?_, by decide⟩
  · intro s m hwf hm hcol
    obtain ⟨h1, h2⟩ := hwf
    have hline := get?_eq_some_getD ([] : List Char) h1
    have hrm : removeAt? (s.lines.getD s.cursor_row []) (s.cursor_col - 1) =
        some (removeAt (s.lines.getD s.cursor_row []) (s.cursor_col - 1)) := by
      unfold removeAt?
      rw [if_pos (by omega)]
    have hstep : s.backspace = some ({ s with
        lines := s.lines.set s.cursor_row
          (removeAt (s.lines.getD s.cursor_row []) (s.cursor_col - 1)),
        cursor_col := s.cursor_col - 1 }) := by
      unfold EditorState.backspace
      rw [if_pos hcol, hline]
      dsimp only
      rw [hrm]
    unfold EditorState.handle_event
    rw [hm]
    dsimp only
    rw [hstep, hm]
    rfl
  · intro s m hwf hm hcol hrow
    obtain ⟨h1, h2⟩ := hwf
    have hcur := get?_eq_some_getD ([] : List Char) h1
    have hrm : removeAt? s.lines s.cursor_row = some (removeAt s.lines s.cursor_row) := by
      unfold removeAt?
      rw [if_pos h1]
    have hprev : (removeAt s.lines s.cursor_row).get? (s.cursor_row - 1) =
        some (s.lines.getD (s.cursor_row - 1) []) := by
      rw [removeAt_get?_lt (by omega) (by omega)]
      exact get?_eq_some_getD ([] : List Char) (by omega)
    have hstep : s.backspace = some ({ s with
        lines := (removeAt s.lines s.cursor_row).set (s.cursor_row - 1)
          (s.lines.getD (s.cursor_row - 1) [] ++ s.lines.getD s.cursor_row []),
        cursor_row := s.cursor_row - 1,
        cursor_col := (s.lines.getD (s.cursor_row - 1) []).length }) := by
      unfold EditorState.backspace
      rw [if_neg (by omega), if_pos hrow, hcur]
      dsimp only
      rw [hrm]
      dsimp only
      rw [hprev]
    unfold EditorState.handle_event
    rw [hm]
    dsimp only
    rw [hstep, hm]
    rfl

/-- C10 witness: both backspace cases at concrete states. -/
theorem backspace_spec_witness :
    (mkState [['a', 'b']] 0 2 EditorMode.insert false).handle_event
        ⟨KeyCode.backspace, false⟩ =
      some ({ mkState [['a', 'b']] 0 2 EditorMode.insert false with
        lines := [['a', 'b']].set 0 (removeAt ['a', 'b'] 1),
        cursor_col := 1 }, none) ∧
    (mkState [['a', 'b'], ['c', 'd']] 1 0 EditorMode.insert false).handle_event
        ⟨KeyCode.backspace, false⟩ =
      some ({ mkState [['a', 'b'], ['c', 'd']] 1 0 EditorMode.insert false with
        lines := (removeAt [['a', 'b'], ['c', 'd']] 1).set 0 (['a', 'b'] ++ ['c', 'd']),
        cursor_row := 0,
        cursor_col := 2 }, none) :=
  ⟨backspace_spec.1 (mkState [['a', 'b']] 0 2 EditorMode.insert false) false
      (by decide) rfl (by decide),
   backspace_spec.2.1 (mkState [['a', 'b'], ['c', 'd']] 1 0 EditorMode.insert false) false
      (by decide) rfl rfl (by decide)⟩

/-- C8 counterexample: pressing the letter movement key h (no control)
in insert mode does not move the cursor with no other effect - it inserts
the character h into the buffer, changing the lines. -/
theorem movement_synonyms_counterexample :
    (mkState [['a', 'b']] 0 0 EditorMode.insert false).handle_event
        ⟨KeyCode.char 'h', false⟩ =
      some (mkState [['h', 'a', 'b']] 0 1 EditorMode.insert false, none) ∧
    (mkState [['h', 'a', 'b']] 0 1 EditorMode.insert false).lines ≠
      (mkState [['a', 'b']] 0 0 EditorMode.insert false).lines :=
  ⟨by decide, by decide⟩

/-- C8 amended: in insert mode the arrow keys `Up`/`Down` dispatch to
exactly the same buffer operations as the navigation-mode keys k / j and
arrow keys, and those operations leave the mode unchanged; the letter keys
are movement synonyms only in navigation mode - in insert mode a printable
letter without control inserts that character at the cursor instead. -/
theorem movement_synonyms_amended :
    (∀ (s : EditorState) (m : Bool), s.mode = EditorMode.insert →
      s.handle_event ⟨KeyCode.up, m⟩ = Option.map (fun t => (t, none)) s.move_up ∧
      s.handle_event ⟨KeyCode.down, m⟩ =
        Option.map (fun t => (t, none)) s.move_down) ∧
    (∀ (s : EditorState) (m : Bool), s.mode = EditorMode.normal →
      s.show_cheatsheet = false →
      s.handle_event ⟨KeyCode.up, m⟩ = Option.map (fun t => (t, none)) s.move_up ∧
      s.handle_event ⟨KeyCode.char 'k', m⟩ =
        Option.map (fun t => (t, none)) s.move_up ∧
      s.handle_event ⟨KeyCode.down, m⟩ =
        Option.map (fun t => (t, none)) s.move_down ∧
      s.handle_event ⟨KeyCode.char 'j', m⟩ =
        Option.map (fun t => (t, none)) s.move_down) ∧
    (∀ (s t : EditorState), s.move_up = some t → t.mode = s.mode) ∧
    (∀ (s t : EditorState), s.move_down = some t → t.mode = s.mode) ∧
    (∀ (s : EditorState) (c : Char), wf s → s.mode = EditorMode.insert →
      s.handle_event ⟨KeyCode.char c, false⟩ =
        some ({ s with
          lines := s.lines.set s.cursor_row
            (insertAt (s.lines.getD s.cursor_row []) s.cursor_col c),
          cursor_col := s.cursor_col + 1 }, none)) := by
  refine ⟨?_, ?_, ?_, ?_, ?_⟩
  · intro s m hm
    constructor
    · unfold EditorState.handle_event
      rw [hm]
    · unfold EditorState.handle_event
      rw [hm]
  · intro s m hm hov
    refine ⟨?_, ?_, ?_, ?_⟩ <;>
      (unfold EditorState.handle_event; rw [hm, hov]; rfl)
  · intro s t h
    unfold EditorState.move_up at h
    split at h
    · split at h
      · simp only [Option.some.injEq] at h
        rw [← h]
      · simp at h
    · simp only [Option.some.injEq] at h
      rw [← h]
  · intro s t h
    unfold EditorState.move_down at h
    split at h
    · split at h
      · simp only [Option.some.injEq] at h
        rw [← h]
      · simp at h
    · simp only [Option.some.injEq] at h
      rw [← h]
  · intro s c hwf hm
    obtain ⟨h1, h2⟩ := hwf
    have hline := get?_eq_some_getD ([] : List Char) h1
    have hins : insertAt? (s.lines.getD s.cursor_row []) s.cursor_col c =
        some (insertAt (s.lines.getD s.cursor_row []) s.cursor_col c) := by
      unfold insertAt?
      rw [if_pos h2]
    have hstep : s.insert_char c = some ({ s with
        lines := s.lines.set s.cursor_row
          (insertAt (s.lines.getD s.cursor_row []) s.cursor_col c),
        cursor_col := s.cursor_col + 1 }) := by
      unfold EditorState.insert_char
      rw [hline]
      dsimp only
      rw [hins]
    unfold EditorState.handle_event
    rw [hm]
    dsimp only
    rw [if_pos rfl, hstep, hm]
    rfl

/-- C8 amended witness: the dispatch equalities and a concrete insertion. -/
theorem movement_synonyms_amended_witness :
    ((mkState [['a'], ['b']] 1 0 EditorMode.insert false).handle_event
        ⟨KeyCode.up, false⟩ =
      Option.map (fun t => (t, none))
        (mkState [['a'], ['b']] 1 0 EditorMode.insert false).move_up ∧
      (mkState [['a'], ['b']] 1 0 EditorMode.insert false).handle_event
        ⟨KeyCode.down, false⟩ =
      Option.map (fun t => (t, none))
        (mkState [['a'], ['b']] 1 0 EditorMode.insert false).move_down) ∧
    (mkState [['a', 'b']] 0 0 EditorMode.insert false).handle_event
        ⟨KeyCode.char 'h', false⟩ =
      some ({ mkState [['a', 'b']] 0 0 EditorMode.insert false with
        lines := [['a', 'b']].set 0 (insertAt ['a', 'b'] 0 'h'),
        cursor_col := 1 }, none) :=
  ⟨movement_synonyms_amended.1 (mkState [['a'], ['b']] 1 0 EditorMode.insert false)
      false rfl,
   movement_synonyms_amended.2.2.2.2 (mkState [['a', 'b']] 0 0 EditorMode.insert false)
      'h' (by decide) rfl⟩
